import Mathlib

/-!
Verification development for the DhanLaxmi order-adjustment and
reconciliation code.

The definitions below are a shallow embedding of the JavaScript source:

* `OpenOrderWindow` embeds the `OpenOrderBottomWindow` component
  (src/unnamed/part_000): its `handleAction` adjustment state machine,
  the stop-loss/target validation, the fund check, the weighted-average
  price, the outbound mutation payloads, and `handlePriceSave`.
* `OrderListLoop` embeds the throttled requestAnimationFrame loop of the
  `OpenOrder` component (src/unnamed/part_000, `updateLoop`).
* `OptionChain` embeds the throttled requestAnimationFrame loop of
  `useOptionChain` (src/frontend/src/hooks/useOptionChain.js,
  `updateLoop`).

JavaScript numbers are modelled as rationals (`ℚ`); `Number(x.toFixed(2))`
and `Number(x.toFixed(4))` are modelled as exact decimal rounding with
ties away from zero towards plus infinity (the ECMAScript `toFixed` rule
of picking the larger candidate integer), see `round2` and `round4`.
Fields that the ECMAScript code defaults with `|| 0` or `?? 0` are
modelled as already-defaulted rationals.  Payload fields that identify
the order (broker id, customer id, order id, instrument token, symbol,
meta) carry no claim content and are omitted from the payload model;
a payload field that the code does not put into the object is `none`.
-/

namespace DhanLaxmi

/-- `Number(x.toFixed(2))`: round to 2 decimal places, ties towards the
larger candidate, as specified for ECMAScript `toFixed`. -/
def round2 (x : ℚ) : ℚ := ((⌊x * 100 + 1/2⌋ : ℤ) : ℚ) / 100

/-- `Number(x.toFixed(4))`: round to 4 decimal places, ties towards the
larger candidate. -/
def round4 (x : ℚ) : ℚ := ((⌊x * 10000 + 1/2⌋ : ℤ) : ℚ) / 10000

namespace OpenOrderWindow

/-- Response of the external funds service (`getFundsData`), with the
`|| 0` defaulting of `handleAction` already applied to each field. -/
structure FundsData where
  intraday_available_limit : ℚ
  intraday_used_limit : ℚ
  overnight_available_limit : ℚ
deriving DecidableEq

/-- The numeric inputs of one `handleAction` / payload computation in
`OpenOrderBottomWindow`, after the component-level coercions:
`orderSide = String(side).toUpperCase()`, `currentPrice = ltpRaw ||
Number(initialPrice) || 0`, `slPrice`/`targetPrice` are the SL and
Target input fields as numbers, `parsedAddLots = max 0 (parseInt
addLotInput)`, `lotSize = Number(lot_size) || ... || 1`,
`currentLots = Number(lots ?? 0)`, `qty = Number(initialQty ?? 0)`,
`avg = Number(initialPrice ?? 0)`, `sheetLtp = sheetData?.ltp` and
`jobbing = Number(jobbin_price ?? 0)`. -/
structure AdjustInputs where
  orderSide : String
  product : String
  currentPrice : ℚ
  slPrice : ℚ
  targetPrice : ℚ
  parsedAddLots : ℕ
  lotSize : ℚ
  currentLots : ℚ
  qty : ℚ
  avg : ℚ
  margin_blocked : ℚ
  sheetLtp : Option ℚ
  jobbing : ℚ
deriving DecidableEq

/-- `productType = product === 'MIS' ? 'Intraday' : 'Overnight'`. -/
def productType (i : AdjustInputs) : String :=
  if i.product = "MIS" then "Intraday" else "Overnight"

/-- `targetTotalLots = currentLots + parsedAddLots`. -/
def targetTotalLots (i : AdjustInputs) : ℚ :=
  i.currentLots + (i.parsedAddLots : ℚ)

/-- `targetTotalQuantity = targetTotalLots * lotSize`. -/
def targetTotalQuantity (i : AdjustInputs) : ℚ :=
  targetTotalLots i * i.lotSize

/-- Weighted average price logic of the component:
`computedAvg = avg` unless `parsedAddLots > 0`, in which case
`computedAvg = (qty*avg + (parsedAddLots*lotSize)*currentPrice) /
targetTotalQuantity`. -/
def computedAvg (i : AdjustInputs) : ℚ :=
  if 0 < i.parsedAddLots then
    (i.qty * i.avg + ((i.parsedAddLots : ℚ) * i.lotSize) * i.currentPrice)
      / targetTotalQuantity i
  else i.avg

/-- The outbound body of the `updateOrder` POST, restricted to the
fields with claim content.  A field the code does not put in the
object is `none`.  The code serialises `lots` with `String(...)`; the
numeric value is modelled. -/
structure MutationPayload where
  order_status : Option String
  product : Option String
  lots : Option ℚ
  quantity : Option ℚ
  price : Option ℚ
  stop_loss : Option ℚ
  target : Option ℚ
  margin_blocked : Option ℚ
  closed_ltp : Option ℚ
  closed_at : Bool
  came_From : Option String
deriving DecidableEq

/-- The payload built by `handleAction` when `targetStatus === 'OPEN'`.
`stop_loss: slPrice ? Number(slPrice) : 0` and `target: targetPrice ?
Number(targetPrice) : 0` both evaluate to the numeric value of the
field (an empty input is modelled as `0`). -/
def openPayload (i : AdjustInputs) : MutationPayload :=
  { order_status := some "OPEN"
  , product := some "MIS"
  , lots := some (targetTotalLots i)
  , quantity := some (targetTotalQuantity i)
  , price := some (round2 (computedAvg i))
  , stop_loss := some i.slPrice
  , target := some i.targetPrice
  , margin_blocked := some i.margin_blocked
  , closed_ltp := none
  , closed_at := false
  , came_From := some "Open" }

/-- Exit logic of `handleAction`: `liveLtp = Number(sheetData?.ltp ??
0)`, `closedLtp = liveLtp`, and if `liveLtp > 0` (a rational `jobbing`
is never NaN) the jobbing percentage is subtracted for BUY and added
otherwise. -/
def closedLtp (i : AdjustInputs) : ℚ :=
  let liveLtp := i.sheetLtp.getD 0
  if 0 < liveLtp then
    if i.orderSide = "BUY" then liveLtp - liveLtp * (i.jobbing / 100)
    else liveLtp + liveLtp * (i.jobbing / 100)
  else liveLtp

/-- The payload built by `handleAction` when `targetStatus` is not
`'OPEN'` (the HOLD and CLOSED transitions).  `closed_ltp:
Number(Number(closedLtp || 0).toFixed(4))`; on the rationals
`closedLtp || 0` is the identity, so only the rounding remains. -/
def exitPayload (i : AdjustInputs) (targetStatus : String) : MutationPayload :=
  { order_status := some targetStatus
  , product := none
  , lots := none
  , quantity := none
  , price := none
  , stop_loss := none
  , target := none
  , margin_blocked := none
  , closed_ltp := some (round4 (closedLtp i))
  , closed_at := true
  , came_From := some (if targetStatus = "HOLD" then "Hold" else "Open") }

/-- The stop-loss/target validation block of `handleAction` (run only
for `targetStatus === 'OPEN' && clickedAction === 'Adjust'`): skipped
entirely unless `currentPrice > 0`; for BUY a positive SL at or above
the current price, then a positive target at or below it, is rejected;
for any other side both comparisons are inverted.  Returns the feedback
message of the first failing check. -/
def slTargetError (orderSide : String) (currentPrice sl tgt : ℚ) : Option String :=
  if 0 < currentPrice then
    if orderSide = "BUY" then
      if 0 < sl ∧ currentPrice ≤ sl then
        some "Invalid SL For BUY SL must be lower than CMP"
      else if 0 < tgt ∧ tgt ≤ currentPrice then
        some "Invalid Target For BUY Target must be higher than CMP"
      else none
    else
      if 0 < sl ∧ sl ≤ currentPrice then
        some "Invalid SL For SELL SL must be higher than CMP"
      else if 0 < tgt ∧ currentPrice ≤ tgt then
        some "Invalid Target For SELL Target must be lower than CMP"
      else none
  else none

/-- `availableLimit` of the fund check: intraday available limit minus
used limit for `'Intraday'`, the overnight available limit directly
otherwise. -/
def availableLimit (pt : String) (f : FundsData) : ℚ :=
  if pt = "Intraday" then f.intraday_available_limit - f.intraday_used_limit
  else f.overnight_available_limit

/-- `requiredAmount = (parsedAddLots * lotSize) * currentPrice`. -/
def requiredAmount (i : AdjustInputs) : ℚ :=
  ((i.parsedAddLots : ℚ) * i.lotSize) * i.currentPrice

/-- One outbound network request of the component: the funds-service
query (`getFundsData`) or the order-mutation POST (`updateOrder`). -/
inductive OutboundCall where
  | fundsQuery : OutboundCall
  | orderMutation : MutationPayload → OutboundCall
deriving DecidableEq

/-- How one `handleAction` invocation ends: an early return with an
error feedback (validation, insufficient funds, failed fund fetch), or
the submission of a mutation payload. -/
inductive ActionOutcome where
  | validationError : String → ActionOutcome
  | insufficientFunds : ℚ → ℚ → ActionOutcome
  | fundsFetchError : ActionOutcome
  | submitted : MutationPayload → ActionOutcome
deriving DecidableEq

/-- The body of `handleAction(clickedAction, targetStatus)`: for the
Adjust→OPEN flow run the SL/target validation, then (only when
`parsedAddLots > 0`) query the funds service (`funds = none` models a
failed or falsy `getFundsData()`), reject when the required amount
exceeds the available limit, and otherwise POST the OPEN payload; any
other target status POSTs the exit payload.  The second component
lists the outbound calls the invocation performs, in order. -/
def handleAction (i : AdjustInputs) (funds : Option FundsData)
    (clickedAction targetStatus : String) : ActionOutcome × List OutboundCall :=
  if targetStatus = "OPEN" ∧ clickedAction = "Adjust" then
    match slTargetError i.orderSide i.currentPrice i.slPrice i.targetPrice with
    | some msg => (.validationError msg, [])
    | none =>
      if 0 < i.parsedAddLots then
        match funds with
        | none => (.fundsFetchError, [.fundsQuery])
        | some f =>
          if availableLimit (productType i) f < requiredAmount i then
            (.insufficientFunds (requiredAmount i) (availableLimit (productType i) f),
              [.fundsQuery])
          else
            (.submitted (openPayload i), [.fundsQuery, .orderMutation (openPayload i)])
      else (.submitted (openPayload i), [.orderMutation (openPayload i)])
  else if targetStatus = "OPEN" then
    (.submitted (openPayload i), [.orderMutation (openPayload i)])
  else
    (.submitted (exitPayload i targetStatus), [.orderMutation (exitPayload i targetStatus)])

/-- Result of `handlePriceSave`. -/
inductive PriceSaveOutcome where
  | invalidPrice : PriceSaveOutcome
  | submitted : ℚ → PriceSaveOutcome
deriving DecidableEq

/-- `handlePriceSave`: an empty or non-numeric input (`none`) or a
negative number is rejected with the `Invalid Price` feedback before
any network call; otherwise the single-field price payload is POSTed. -/
def handlePriceSave (editPriceInput : Option ℚ) : PriceSaveOutcome × List OutboundCall :=
  match editPriceInput with
  | none => (.invalidPrice, [])
  | some p =>
    if p < 0 then (.invalidPrice, [])
    else
      (.submitted p,
        [.orderMutation
          { order_status := none, product := none, lots := none, quantity := none
          , price := some p, stop_loss := none, target := none, margin_blocked := none
          , closed_ltp := none, closed_at := false, came_From := none }])

/-- The Adjust buttons of `OpenOrderBottomWindow` are rendered with
`disabled={submitting}`, so while a mutation is pending a click is not
dispatched at all: `handleAction` runs only when `submitting` is
false.  Returns the outcome (if any) and the outbound calls of the
click. -/
def adjustButtonClick (submitting : Bool) (i : AdjustInputs)
    (funds : Option FundsData) (targetStatus : String) :
    Option ActionOutcome × List OutboundCall :=
  if submitting then (none, [])
  else
    let r := handleAction i funds "Adjust" targetStatus
    (some r.1, r.2)

end OpenOrderWindow

/-- `Map.get` semantics of a key lookup (`ticksMap.get(tickKey)` and
`ticks.get(token)`), modelled on an association list whose keys are
unique. -/
def lookupKey {α : Type} : List (String × α) → String → Option α
  | [], _ => none
  | p :: rest, k => if p.1 = k then some p.2 else lookupKey rest k

namespace OrderListLoop

/-- One due sampling cycle of the `updateLoop` requestAnimationFrame
loop in `OpenOrder` (the throttle interval has elapsed).  The loop
skips when the instrument list is missing or empty; otherwise it
collects `newTicks[tickKey] = tick` for every instrument whose token is
in the tick map, sets `hasUpdates` when at least one tick was found,
and calls `setLiveTicks(prev => newTicks)` exactly when `hasUpdates`.
`some newTicks` models that downstream publish; `none` models no
publish.  The previously published value `prevLiveTicks` is received by
the updater but never consulted. -/
def dueCycle {α : Type} (instrumentData : List String)
    (ticks : List (String × α)) (prevLiveTicks : List (String × α)) :
    Option (List (String × α)) :=
  if instrumentData.isEmpty then none
  else
    let newTicks := instrumentData.filterMap
      (fun tok => (lookupKey ticks tok).map (fun t => (tok, t)))
    if newTicks.isEmpty then none else some newTicks

end OrderListLoop

namespace OptionChain

/-- One leg (`row.call` or `row.put`) of an option-chain row; `ltp` is
`none` when the object has no `ltp` field yet. -/
structure OptionLeg where
  ltp : Option ℚ
deriving DecidableEq

/-- One strike row of `chainData`. -/
structure ChainRow where
  strike : ℚ
  call : Option OptionLeg
  put : Option OptionLeg
deriving DecidableEq

/-- A value of `tokenMapRef`: chain index and leg type (`"call"` or
`"put"`) for one instrument token. -/
structure TokenPos where
  index : ℕ
  type : String
deriving DecidableEq

/-- A `pendingUpdates` entry: the new call and/or put LTP collected for
one chain index. -/
structure PendingEntry where
  callLtp : Option ℚ
  putLtp : Option ℚ
deriving DecidableEq

/-- `const currentLtp = type === 'call' ? row.call?.ltp : row.put?.ltp`. -/
def currentLegLtp (row : ChainRow) (ty : String) : Option ℚ :=
  if ty = "call" then row.call.bind OptionLeg.ltp else row.put.bind OptionLeg.ltp

/-- `pendingUpdates.get(index)` on the association-list model of the
`Map`. -/
def getEntry : List (ℕ × PendingEntry) → ℕ → Option PendingEntry
  | [], _ => none
  | p :: rest, k => if p.1 = k then some p.2 else getEntry rest k

/-- `pendingUpdates.set(index, entry)` on the association-list model of
the `Map`: replace the entry of an existing key, append a new key. -/
def setEntry : List (ℕ × PendingEntry) → ℕ → PendingEntry → List (ℕ × PendingEntry)
  | [], k, v => [(k, v)]
  | p :: rest, k, v => if p.1 = k then (k, v) :: rest else p :: setEntry rest k v

/-- One step of the `tokenMapRef.current.forEach` collection in the
`useOptionChain` `updateLoop`: look up the tick of the token (a tick
with a defined `ltp` is modelled as a map entry carrying that `ltp`),
require `ltp > 0`, look up the chain row at the mapped index, and when
the current leg LTP differs from the tick record the change in
`pendingUpdates`. -/
def stepPending (chain : List ChainRow) (ticks : List (String × ℚ))
    (acc : List (ℕ × PendingEntry)) (e : String × TokenPos) :
    List (ℕ × PendingEntry) :=
  match lookupKey ticks e.1 with
  | none => acc
  | some tltp =>
    if 0 < tltp then
      match chain[e.2.index]? with
      | none => acc
      | some row =>
        if currentLegLtp row e.2.type ≠ some tltp then
          let entry := (getEntry acc e.2.index).getD ⟨none, none⟩
          let entry1 := if e.2.type = "call" then { entry with callLtp := some tltp } else entry
          let entry2 := if e.2.type = "put" then { entry1 with putLtp := some tltp } else entry1
          setEntry acc e.2.index entry2
        else acc
    else acc

/-- The whole `pendingUpdates` collection pass of `updateLoop`. -/
def collectPending (chain : List ChainRow) (ticks : List (String × ℚ))
    (tokenMap : List (String × TokenPos)) : List (ℕ × PendingEntry) :=
  tokenMap.foldl (stepPending chain ticks) []

/-- Application of one `pendingUpdates` entry to its row: `newRow.call`
gets the new LTP when `updates.callLtp !== undefined && newRow.call`,
then likewise for the put leg. -/
def applyRow (row : ChainRow) (upd : PendingEntry) : ChainRow :=
  let r1 := match upd.callLtp, row.call with
    | some v, some leg => { row with call := some { leg with ltp := some v } }
    | _, _ => row
  match upd.putLtp, r1.put with
  | some v, some leg => { r1 with put := some { leg with ltp := some v } }
  | _, _ => r1

/-- The `for (const [index, updates] of pendingUpdates.entries())` pass
over the cloned chain.  Entries always point at existing rows (the
collection pass checked `currentChain[index]`), so the out-of-range
case leaves the chain unchanged. -/
def applyPending (chain : List ChainRow) (pending : List (ℕ × PendingEntry)) :
    List ChainRow :=
  pending.foldl
    (fun ch p =>
      match ch[p.1]? with
      | some row => ch.set p.1 (applyRow row p.2)
      | none => ch)
    chain

/-- One due sampling cycle of the `useOptionChain` `updateLoop`: skip
(no publish) when the chain, the tick map or the token map is empty;
otherwise collect `pendingUpdates` and, only when it is nonempty,
publish the updated chain (`chainDataRef.current = updatedChain;
setChainData(updatedChain)`), which also becomes the chain the next
cycle compares against. -/
def updateLoopCycle (chain : List ChainRow) (tokenMap : List (String × TokenPos))
    (ticks : List (String × ℚ)) : Option (List ChainRow) :=
  if chain.isEmpty || ticks.isEmpty || tokenMap.isEmpty then none
  else
    let pending := collectPending chain ticks tokenMap
    if pending.isEmpty then none else some (applyPending chain pending)

/-- `rowOk chain e`: the chain row that token-map entry `e` points at
exists and carries the leg `e` refers to.  `subscribeToOptionStrikes`
only maps a token to `(index, 'call')` or `(index, 'put')` when that
leg of row `index` exists. -/
def rowOk (chain : List ChainRow) (e : String × TokenPos) : Bool :=
  match chain[e.2.index]? with
  | some row => (if e.2.type = "call" then row.call else row.put).isSome
  | none => false

/-- The shape `subscribeToOptionStrikes` establishes for
`tokenMapRef.current` against the chain: every entry has type `call`
or `put`, points at an existing row carrying that leg, and no two
tokens map to the same (index, type) slot. -/
def wellFormed (chain : List ChainRow) (tokenMap : List (String × TokenPos)) : Prop :=
  (∀ e ∈ tokenMap, (e.2.type = "call" ∨ e.2.type = "put") ∧ rowOk chain e = true) ∧
    (tokenMap.map (fun e => (e.2.index, e.2.type))).Nodup

/-- The call or put component of a `pendingUpdates` entry, selected by
leg type. -/
def sideField (pe : PendingEntry) (ty : String) : Option ℚ :=
  if ty = "call" then pe.callLtp else pe.putLtp

/-- The pending new LTP recorded for chain index `idx` and leg type
`ty`. -/
def entrySide (pending : List (ℕ × PendingEntry)) (idx : ℕ) (ty : String) : Option ℚ :=
  (getEntry pending idx).bind (fun pe => sideField pe ty)

/-- The keys of the `pendingUpdates` association list. -/
def keys (l : List (ℕ × PendingEntry)) : List ℕ := l.map Prod.fst

end OptionChain

/-! Concrete inputs used by the witnesses and counterexamples below.
The numbers come from the worked examples of the specification. -/

/-- Adjust inputs of the fund-check example: 2 added lots of size 25 at
price 1200, no stop loss or target set. -/
def fundsCheckInput : OpenOrderWindow.AdjustInputs :=
  { orderSide := "BUY", product := "MIS", currentPrice := 1200, slPrice := 0
  , targetPrice := 0, parsedAddLots := 2, lotSize := 25, currentLots := 3
  , qty := 75, avg := 100, margin_blocked := 0, sheetLtp := none, jobbing := 0 }

/-- Funds of the fund-check example: intraday limit 100000 with 40000
used. -/
def fundsCheckFunds : OpenOrderWindow.FundsData :=
  { intraday_available_limit := 100000, intraday_used_limit := 40000
  , overnight_available_limit := 0 }

/-- Adjust inputs of the weighted-average example: existing 75 at 100
(3 lots of 25), adding one lot of 25 at 120. -/
def weightedAvgInput : OpenOrderWindow.AdjustInputs :=
  { orderSide := "BUY", product := "MIS", currentPrice := 120, slPrice := 0
  , targetPrice := 0, parsedAddLots := 1, lotSize := 25, currentLots := 3
  , qty := 75, avg := 100, margin_blocked := 0, sheetLtp := none, jobbing := 0 }

/-- Adjust inputs with no added lots and an average of 100.125 (801/8),
whose 2-decimal rounding differs from the average itself. -/
def roundingCexInput : OpenOrderWindow.AdjustInputs :=
  { orderSide := "BUY", product := "MIS", currentPrice := 100, slPrice := 0
  , targetPrice := 0, parsedAddLots := 0, lotSize := 25, currentLots := 3
  , qty := 75, avg := 801/8, margin_blocked := 0, sheetLtp := none, jobbing := 0 }

/-- Adjust inputs with a BUY stop loss equal to the current price,
which the validation rejects. -/
def slErrorInput : OpenOrderWindow.AdjustInputs :=
  { orderSide := "BUY", product := "MIS", currentPrice := 100, slPrice := 100
  , targetPrice := 0, parsedAddLots := 0, lotSize := 25, currentLots := 3
  , qty := 75, avg := 100, margin_blocked := 0, sheetLtp := none, jobbing := 0 }

/-- Adjust inputs of the close-price example: a BUY with live price 100
and a jobbing percentage of 2, closing at 98. -/
def closePriceInput : OpenOrderWindow.AdjustInputs :=
  { orderSide := "BUY", product := "MIS", currentPrice := 100, slPrice := 0
  , targetPrice := 0, parsedAddLots := 0, lotSize := 25, currentLots := 3
  , qty := 75, avg := 100, margin_blocked := 0, sheetLtp := some 100, jobbing := 2 }

/-- A one-row option chain before a tick is applied. -/
def chainBefore : List OptionChain.ChainRow :=
  [{ strike := 100
   , call := some { ltp := some 1 }
   , put := some { ltp := some 2 } }]

/-- The one-row option chain after the call tick 5 is applied. -/
def chainAfter : List OptionChain.ChainRow :=
  [{ strike := 100
   , call := some { ltp := some 5 }
   , put := some { ltp := some 2 } }]

/-- Token map that routes token 11 to the call leg of row 0. -/
def chainTokenMap : List (String × OptionChain.TokenPos) :=
  [("11", { index := 0, type := "call" })]

/-- Tick map holding the call tick 5 for token 11. -/
def chainTicks : List (String × ℚ) := [("11", 5)]

/-! Supporting lemmas. -/

namespace OpenOrderWindow

theorem slTargetError_none_buy_iff (cp sl tgt : ℚ) (hcp : 0 < cp) :
    slTargetError "BUY" cp sl tgt = none ↔
      ((0 < sl → sl < cp) ∧ (0 < tgt → cp < tgt)) := by
  rw [slTargetError, if_pos hcp]
  simp only [String.reduceEq, reduceIte, if_true]
  split_ifs with h1 h2
  · simp only [reduceCtorEq, false_iff]
    rintro ⟨a, -⟩
    exact absurd (a h1.1) (not_lt.mpr h1.2)
  · simp only [reduceCtorEq, false_iff]
    rintro ⟨-, b⟩
    exact absurd (b h2.1) (not_lt.mpr h2.2)
  · push_neg at h1 h2
    simp only [true_iff]
    exact ⟨fun h => h1 h, fun h => h2 h⟩

theorem slTargetError_none_sell_iff (cp sl tgt : ℚ) (hcp : 0 < cp) :
    slTargetError "SELL" cp sl tgt = none ↔
      ((0 < sl → cp < sl) ∧ (0 < tgt → tgt < cp)) := by
  rw [slTargetError, if_pos hcp]
  simp only [String.reduceEq, reduceIte, if_false]
  split_ifs with h1 h2
  · simp only [reduceCtorEq, false_iff]
    rintro ⟨a, -⟩
    exact absurd (a h1.1) (not_lt.mpr h1.2)
  · simp only [reduceCtorEq, false_iff]
    rintro ⟨-, b⟩
    exact absurd (b h2.1) (not_lt.mpr h2.2)
  · push_neg at h1 h2
    simp only [true_iff]
    exact ⟨fun h => h1 h, fun h => h2 h⟩

theorem slTargetError_of_nonpos (side : String) (cp sl tgt : ℚ) (hcp : cp ≤ 0) :
    slTargetError side cp sl tgt = none := by
  rw [slTargetError, if_neg (not_lt.mpr hcp)]

end OpenOrderWindow

namespace OptionChain

theorem getEntry_setEntry_self (l : List (ℕ × PendingEntry)) (k : ℕ) (v : PendingEntry) :
    getEntry (setEntry l k v) k = some v := by
  induction l with
  | nil => simp [setEntry, getEntry]
  | cons p rest ih =>
    by_cases h : p.1 = k
    · simp [setEntry, getEntry, h]
    · simp [setEntry, getEntry, h, ih]

theorem getEntry_setEntry_ne (l : List (ℕ × PendingEntry)) (k k' : ℕ) (v : PendingEntry)
    (h : k' ≠ k) : getEntry (setEntry l k v) k' = getEntry l k' := by
  induction l with
  | nil => simp [setEntry, getEntry, Ne.symm h]
  | cons p rest ih =>
    by_cases hp : p.1 = k
    · have hk : ¬(k = k') := fun hc => h hc.symm
      have hp' : ¬(p.1 = k') := by rw [hp]; exact hk
      simp [setEntry, getEntry, hp, hk, hp']
    · by_cases hp' : p.1 = k'
      · simp [setEntry, getEntry, hp, hp', h]
      · simp [setEntry, getEntry, hp, hp', ih]

theorem keys_cons (p : ℕ × PendingEntry) (l : List (ℕ × PendingEntry)) :
    keys (p :: l) = p.1 :: keys l := rfl

theorem keys_setEntry (l : List (ℕ × PendingEntry)) (k : ℕ) (v : PendingEntry) :
    keys (setEntry l k v) = if k ∈ keys l then keys l else keys l ++ [k] := by
  induction l with
  | nil => simp [setEntry, keys]
  | cons p rest ih =>
    by_cases hp : p.1 = k
    · simp [setEntry, keys, hp]
    · have hkp : ¬(k = p.1) := fun hc => hp hc.symm
      simp only [setEntry, if_neg hp]
      show p.1 :: keys (setEntry rest k v) = _
      rw [ih]
      by_cases hk : k ∈ keys rest
      · simp [keys_cons, hk, hkp]
      · simp [keys_cons, hk, hkp]

theorem nodup_keys_setEntry (l : List (ℕ × PendingEntry)) (k : ℕ) (v : PendingEntry)
    (h : (keys l).Nodup) : (keys (setEntry l k v)).Nodup := by
  rw [keys_setEntry]
  by_cases hk : k ∈ keys l
  · simp [hk, h]
  · simp [hk, List.nodup_append, h]

theorem nodup_keys_stepPending (chain : List ChainRow) (ticks : List (String × ℚ))
    (acc : List (ℕ × PendingEntry)) (e : String × TokenPos)
    (h : (keys acc).Nodup) : (keys (stepPending chain ticks acc e)).Nodup := by
  rw [stepPending]
  cases lookupKey ticks e.1 with
  | none => exact h
  | some tltp =>
    by_cases ht : 0 < tltp
    · simp only [if_pos ht]
      cases chain[e.2.index]? with
      | none => exact h
      | some row =>
        by_cases hch : currentLegLtp row e.2.type ≠ some tltp
        · simp only [if_pos hch]
          exact nodup_keys_setEntry _ _ _ h
        · simp only [if_neg hch]
          exact h
    · simp only [if_neg ht]
      exact h

theorem nodup_keys_collectPending (chain : List ChainRow) (ticks : List (String × ℚ))
    (tokenMap : List (String × TokenPos)) :
    (keys (collectPending chain ticks tokenMap)).Nodup := by
  rw [collectPending]
  have : ∀ (l : List (String × TokenPos)) (acc : List (ℕ × PendingEntry)),
      (keys acc).Nodup → (keys (l.foldl (stepPending chain ticks) acc)).Nodup := by
    intro l
    induction l with
    | nil => intro acc h; exact h
    | cons e rest ih =>
      intro acc h
      exact ih _ (nodup_keys_stepPending chain ticks acc e h)
  exact this tokenMap [] (by simp [keys])

theorem entrySide_stepPending_ne (chain : List ChainRow) (ticks : List (String × ℚ))
    (acc : List (ℕ × PendingEntry)) (e : String × TokenPos) (idx : ℕ) (ty : String)
    (hty : ty = "call" ∨ ty = "put")
    (hne : e.2.index ≠ idx ∨ e.2.type ≠ ty) :
    entrySide (stepPending chain ticks acc e) idx ty = entrySide acc idx ty := by
  rw [stepPending]
  cases lookupKey ticks e.1 with
  | none => rfl
  | some tltp =>
    by_cases ht : 0 < tltp
    · simp only [if_pos ht]
      cases chain[e.2.index]? with
      | none => rfl
      | some row =>
        by_cases hch : currentLegLtp row e.2.type ≠ some tltp
        · simp only [if_pos hch]
          rcases hne with hne | hne
          · rw [entrySide, getEntry_setEntry_ne _ _ _ _ (Ne.symm hne)]
            rfl
          · by_cases hidx : e.2.index = idx
            · subst hidx
              rw [entrySide, getEntry_setEntry_self]
              rw [entrySide]
              cases hold : getEntry acc e.2.index with
              | none =>
                rcases hty with h | h <;>
                  subst h <;>
                  simp [hold, sideField, Ne.symm hne] <;>
                  split_ifs <;>
                  simp_all [sideField]
              | some pe =>
                rcases hty with h | h <;>
                  subst h <;>
                  simp [hold, sideField, Ne.symm hne] <;>
                  split_ifs <;>
                  simp_all [sideField]
            · rw [entrySide, getEntry_setEntry_ne _ _ _ _ (fun hc => hidx hc.symm)]
              rfl
        · simp only [if_neg hch]
    · simp only [if_neg ht]

theorem entrySide_foldl_ne (chain : List ChainRow) (ticks : List (String × ℚ))
    (l : List (String × TokenPos)) (acc : List (ℕ × PendingEntry)) (idx : ℕ) (ty : String)
    (hty : ty = "call" ∨ ty = "put")
    (h : ∀ e ∈ l, e.2.index ≠ idx ∨ e.2.type ≠ ty) :
    entrySide (l.foldl (stepPending chain ticks) acc) idx ty = entrySide acc idx ty := by
  induction l generalizing acc with
  | nil => rfl
  | cons e rest ih =>
    rw [List.foldl_cons, ih _ (fun x hx => h x (List.mem_cons_of_mem e hx))]
    exact entrySide_stepPending_ne chain ticks acc e idx ty hty (h e (List.mem_cons_self e rest))

theorem entrySide_stepPending_self (chain : List ChainRow) (ticks : List (String × ℚ))
    (acc : List (ℕ × PendingEntry)) (e : String × TokenPos) (tltp : ℚ) (row : ChainRow)
    (hl : lookupKey ticks e.1 = some tltp) (ht : 0 < tltp)
    (hrow : chain[e.2.index]? = some row)
    (hty : e.2.type = "call" ∨ e.2.type = "put")
    (hnone : entrySide acc e.2.index e.2.type = none) :
    entrySide (stepPending chain ticks acc e) e.2.index e.2.type =
      if currentLegLtp row e.2.type = some tltp then none else some tltp := by
  rw [stepPending, hl]
  simp only [if_pos ht, hrow]
  by_cases hch : currentLegLtp row e.2.type = some tltp
  · simp only [if_neg (not_not_intro hch), if_pos hch]
    exact hnone
  · simp only [if_pos hch, if_neg hch]
    rw [entrySide, getEntry_setEntry_self]
    rcases hty with h | h <;> rw [h] <;> simp [sideField, h]

theorem entrySide_collectPending (chain : List ChainRow) (ticks : List (String × ℚ))
    (tokenMap : List (String × TokenPos)) (e : String × TokenPos) (tltp : ℚ) (row : ChainRow)
    (hmem : e ∈ tokenMap)
    (hnodup : (tokenMap.map (fun x => (x.2.index, x.2.type))).Nodup)
    (hty : e.2.type = "call" ∨ e.2.type = "put")
    (hl : lookupKey ticks e.1 = some tltp) (ht : 0 < tltp)
    (hrow : chain[e.2.index]? = some row) :
    entrySide (collectPending chain ticks tokenMap) e.2.index e.2.type =
      if currentLegLtp row e.2.type = some tltp then none else some tltp := by
  obtain ⟨l1, l2, rfl⟩ := List.append_of_mem hmem
  have hslot : ∀ x ∈ l1 ++ l2, x.2.index ≠ e.2.index ∨ x.2.type ≠ e.2.type := by
    intro x hx
    by_contra hc
    push_neg at hc
    have hpair : (x.2.index, x.2.type) = (e.2.index, e.2.type) := by
      rw [hc.1, hc.2]
    rw [List.map_append, List.map_cons] at hnodup
    have hnotin := (List.nodup_cons.mp (List.nodup_middle.mp hnodup)).1
    rcases List.mem_append.mp hx with hx1 | hx2
    · exact hnotin (List.mem_append_left _ (hpair ▸ List.mem_map_of_mem _ hx1))
    · exact hnotin (List.mem_append_right _ (hpair ▸ List.mem_map_of_mem _ hx2))
  rw [collectPending, List.foldl_append, List.foldl_cons]
  rw [entrySide_foldl_ne chain ticks l2 _ _ _ hty
    (fun x hx => hslot x (List.mem_append_right l1 hx))]
  apply entrySide_stepPending_self chain ticks _ e tltp row hl ht hrow hty
  rw [entrySide_foldl_ne chain ticks l1 _ _ _ hty
    (fun x hx => hslot x (List.mem_append_left l2 hx))]
  rfl

theorem length_applyPending (chain : List ChainRow) (pending : List (ℕ × PendingEntry)) :
    (applyPending chain pending).length = chain.length := by
  rw [applyPending]
  induction pending generalizing chain with
  | nil => rfl
  | cons p rest ih =>
    rw [List.foldl_cons]
    cases h : chain[p.1]? with
    | none => simp only [h]; exact ih chain
    | some row =>
      simp only [h]
      rw [ih]
      exact List.length_set chain p.1 (applyRow row p.2)

theorem applyPending_getElem?_notMem (chain : List ChainRow)
    (pending : List (ℕ × PendingEntry)) (idx : ℕ) (h : idx ∉ keys pending) :
    (applyPending chain pending)[idx]? = chain[idx]? := by
  induction pending generalizing chain with
  | nil => rfl
  | cons p rest ih =>
    have hne : p.1 ≠ idx := fun hc => h (hc ▸ List.mem_cons_self p.1 _)
    have hrest : idx ∉ keys rest := fun hc => h (List.mem_cons_of_mem _ hc)
    rw [applyPending, List.foldl_cons]
    cases hr : chain[p.1]? with
    | none =>
      simp only [hr]
      rw [show rest.foldl _ chain = applyPending chain rest from rfl]
      exact ih chain hrest
    | some row =>
      simp only [hr]
      rw [show rest.foldl _ (chain.set p.1 (applyRow row p.2)) =
          applyPending (chain.set p.1 (applyRow row p.2)) rest from rfl]
      rw [ih _ hrest]
      exact List.getElem?_set_ne hne

theorem applyPending_getElem?_mem (chain : List ChainRow)
    (pending : List (ℕ × PendingEntry)) (idx : ℕ) (pe : PendingEntry)
    (hnd : (keys pending).Nodup) (hget : getEntry pending idx = some pe) :
    (applyPending chain pending)[idx]? = (chain[idx]?).map (fun r => applyRow r pe) := by
  induction pending generalizing chain with
  | nil => exact absurd hget (by simp [getEntry])
  | cons p rest ih =>
    rw [keys_cons, List.nodup_cons] at hnd
    by_cases hp : p.1 = idx
    · have hpe : p.2 = pe := by
        rw [getEntry, if_pos hp] at hget
        exact Option.some.inj hget
      subst hp
      subst hpe
      rw [applyPending, List.foldl_cons]
      have hnotin : p.1 ∉ keys rest := hnd.1
      cases hr : chain[p.1]? with
      | none =>
        simp only [hr]
        rw [show rest.foldl _ chain = applyPending chain rest from rfl,
          applyPending_getElem?_notMem chain rest p.1 hnotin, hr]
        rfl
      | some row =>
        simp only [hr]
        rw [show rest.foldl _ (chain.set p.1 (applyRow row p.2)) =
            applyPending (chain.set p.1 (applyRow row p.2)) rest from rfl,
          applyPending_getElem?_notMem _ rest p.1 hnotin]
        have hlt : p.1 < chain.length := by
          by_contra hge
          rw [List.getElem?_eq_none (le_of_not_lt hge)] at hr
          exact Option.noConfusion hr
        rw [List.getElem?_set_eq_of_lt _ hlt]
        rfl
    · have hget' : getEntry rest idx = some pe := by
        rw [getEntry, if_neg hp] at hget
        exact hget
      rw [applyPending, List.foldl_cons]
      cases hr : chain[p.1]? with
      | none =>
        simp only [hr]
        rw [show rest.foldl _ chain = applyPending chain rest from rfl]
        exact ih chain hnd.2 hget'
      | some row =>
        simp only [hr]
        rw [show rest.foldl _ (chain.set p.1 (applyRow row p.2)) =
            applyPending (chain.set p.1 (applyRow row p.2)) rest from rfl,
          ih _ hnd.2 hget', List.getElem?_set_ne hp]

theorem currentLegLtp_applyRow (row : ChainRow) (pe : PendingEntry) (ty : String)
    (hty : ty = "call" ∨ ty = "put")
    (hpres : (if ty = "call" then row.call else row.put).isSome = true) :
    currentLegLtp (applyRow row pe) ty =
      match sideField pe ty with
      | some v => some v
      | none => currentLegLtp row ty := by
  rcases hty with h | h
  · subst h
    have hcall : ∃ leg, row.call = some leg := by
      simpa [Option.isSome_iff_exists] using hpres
    obtain ⟨leg, hleg⟩ := hcall
    cases hc : pe.callLtp <;> cases hp : pe.putLtp <;> cases hput : row.put <;>
      simp [applyRow, currentLegLtp, sideField, hc, hp, hleg, hput]
  · subst h
    have hput2 : ∃ leg, row.put = some leg := by
      simpa [Option.isSome_iff_exists] using hpres
    obtain ⟨leg, hleg⟩ := hput2
    cases hc : pe.callLtp <;> cases hp : pe.putLtp <;> cases hcall : row.call <;>
      simp [applyRow, currentLegLtp, sideField, hc, hp, hleg, hcall]

theorem getEntry_eq_none_iff (l : List (ℕ × PendingEntry)) (k : ℕ) :
    getEntry l k = none ↔ k ∉ keys l := by
  induction l with
  | nil => simp [getEntry, keys]
  | cons p rest ih =>
    by_cases hp : p.1 = k
    · simp [getEntry, keys_cons, hp]
    · have hk : ¬(k = p.1) := fun hc => hp hc.symm
      simp [getEntry, keys_cons, hp, hk, ih]

theorem stepPending_eq_of_nochange (chain : List ChainRow) (ticks : List (String × ℚ))
    (acc : List (ℕ × PendingEntry)) (e : String × TokenPos)
    (h : ∀ t, lookupKey ticks e.1 = some t → 0 < t →
      ∀ row, chain[e.2.index]? = some row → currentLegLtp row e.2.type = some t) :
    stepPending chain ticks acc e = acc := by
  rw [stepPending]
  cases hl : lookupKey ticks e.1 with
  | none => rfl
  | some t =>
    by_cases ht : 0 < t
    · simp only [if_pos ht]
      cases hr : chain[e.2.index]? with
      | none => rfl
      | some row =>
        have := h t hl ht row hr
        simp only [if_neg (not_not_intro this)]
    · simp only [if_neg ht]

theorem collectPending_eq_nil (chain : List ChainRow) (ticks : List (String × ℚ))
    (tokenMap : List (String × TokenPos))
    (h : ∀ e ∈ tokenMap, ∀ acc, stepPending chain ticks acc e = acc) :
    collectPending chain ticks tokenMap = [] := by
  rw [collectPending]
  have : ∀ (l : List (String × TokenPos)),
      (∀ e ∈ l, ∀ acc, stepPending chain ticks acc e = acc) →
      ∀ acc : List (ℕ × PendingEntry), l.foldl (stepPending chain ticks) acc = acc := by
    intro l
    induction l with
    | nil => intro _ acc; rfl
    | cons e rest ih =>
      intro hl acc
      rw [List.foldl_cons, hl e (List.mem_cons_self e rest) acc]
      exact ih (fun x hx => hl x (List.mem_cons_of_mem e hx)) acc
  exact this tokenMap h []

/-- After a published cycle, every token-map entry with a positive tick
sees exactly that tick as the current leg LTP of the updated chain. -/
theorem applyPending_legLtp (chain : List ChainRow) (ticks : List (String × ℚ))
    (tokenMap : List (String × TokenPos)) (e : String × TokenPos) (t : ℚ)
    (hwf : wellFormed chain tokenMap)
    (hmem : e ∈ tokenMap)
    (hl : lookupKey ticks e.1 = some t) (ht : 0 < t) :
    ∀ row2, (applyPending chain (collectPending chain ticks tokenMap))[e.2.index]? = some row2 →
      currentLegLtp row2 e.2.type = some t := by
  intro row2 hrow2
  obtain ⟨hall, hnodup⟩ := hwf
  obtain ⟨hty, hok⟩ := hall e hmem
  have hrow : ∃ row, chain[e.2.index]? = some row ∧
      (if e.2.type = "call" then row.call else row.put).isSome = true := by
    rw [rowOk] at hok
    cases hr : chain[e.2.index]? with
    | none => rw [hr] at hok; exact absurd hok (by simp)
    | some row => rw [hr] at hok; exact ⟨row, rfl, hok⟩
  obtain ⟨row, hr, hpres⟩ := hrow
  have hside := entrySide_collectPending chain ticks tokenMap e t row hmem hnodup hty hl ht hr
  set pending := collectPending chain ticks tokenMap with hpend
  have hnd : (keys pending).Nodup := nodup_keys_collectPending chain ticks tokenMap
  by_cases hch : currentLegLtp row e.2.type = some t
  · rw [if_pos hch] at hside
    cases hget : getEntry pending e.2.index with
    | none =>
      have hnot : e.2.index ∉ keys pending :=
        (getEntry_eq_none_iff pending e.2.index).mp hget
      have heq := applyPending_getElem?_notMem chain pending e.2.index hnot
      rw [hrow2, hr] at heq
      have hrr : row2 = row := by simpa using heq
      subst hrr
      exact hch
    | some pe =>
      have : (applyPending chain pending)[e.2.index]? =
          (chain[e.2.index]?).map (fun r => applyRow r pe) :=
        applyPending_getElem?_mem chain pending e.2.index pe hnd hget
      rw [hrow2, hr] at this
      have hrow2eq : row2 = applyRow row pe := by
        simpa using this
      subst hrow2eq
      have hsf : sideField pe e.2.type = none := by
        rw [entrySide, hget] at hside
        simpa using hside
      rw [currentLegLtp_applyRow row pe e.2.type hty hpres, hsf]
      exact hch
  · rw [if_neg hch] at hside
    have hget : ∃ pe, getEntry pending e.2.index = some pe ∧ sideField pe e.2.type = some t := by
      rw [entrySide] at hside
      cases hg : getEntry pending e.2.index with
      | none => rw [hg] at hside; exact absurd hside (by simp)
      | some pe => rw [hg] at hside; exact ⟨pe, rfl, by simpa using hside⟩
    obtain ⟨pe, hget, hsf⟩ := hget
    have : (applyPending chain pending)[e.2.index]? =
        (chain[e.2.index]?).map (fun r => applyRow r pe) :=
      applyPending_getElem?_mem chain pending e.2.index pe hnd hget
    rw [hrow2, hr] at this
    have hrow2eq : row2 = applyRow row pe := by
      simpa using this
    subst hrow2eq
    rw [currentLegLtp_applyRow row pe e.2.type hty hpres, hsf]

/-- A published option-chain cycle followed by a cycle over the same
ticks publishes nothing the second time. -/
theorem updateLoopCycle_no_republish (chain chain2 : List ChainRow)
    (tokenMap : List (String × TokenPos)) (ticks : List (String × ℚ))
    (hwf : wellFormed chain tokenMap)
    (h1 : updateLoopCycle chain tokenMap ticks = some chain2) :
    updateLoopCycle chain2 tokenMap ticks = none := by
  rw [updateLoopCycle] at h1
  by_cases hg : chain.isEmpty || ticks.isEmpty || tokenMap.isEmpty
  · rw [if_pos hg] at h1
    exact Option.noConfusion h1
  · rw [if_neg hg] at h1
    by_cases hp : (collectPending chain ticks tokenMap).isEmpty
    · rw [if_pos hp] at h1
      exact Option.noConfusion h1
    · rw [if_neg hp] at h1
      have hchain2 : chain2 = applyPending chain (collectPending chain ticks tokenMap) :=
        (Option.some.inj h1).symm
      rw [updateLoopCycle]
      have hg2 : ¬(chain2.isEmpty || ticks.isEmpty || tokenMap.isEmpty) := by
        simp only [Bool.or_eq_true, not_or] at hg ⊢
        refine ⟨⟨?_, hg.1.2⟩, hg.2⟩
        have hlen : chain2.length = chain.length := by
          rw [hchain2]
          exact length_applyPending chain _
        intro hemp
        apply hg.1.1
        rw [List.isEmpty_iff_length_eq_zero] at hemp ⊢
        rw [← hlen]
        exact hemp
      rw [if_neg hg2]
      have hnil : collectPending chain2 ticks tokenMap = [] := by
        apply collectPending_eq_nil
        intro e he acc
        apply stepPending_eq_of_nochange
        intro t hl ht row2 hrow2
        rw [hchain2] at hrow2
        exact applyPending_legLtp chain ticks tokenMap e t hwf he hl ht row2 hrow2
      rw [hnil]
      rfl

end OptionChain

namespace OrderListLoop

/-- The order-list loop publishes on a due cycle exactly when the
instrument list is nonempty and some instrument has a tick in the tick
map; the previously published value plays no role. -/
theorem dueCycle_isSome_iff {α : Type} (instrumentData : List String)
    (ticks prev : List (String × α)) :
    (dueCycle instrumentData ticks prev).isSome = true ↔
      instrumentData ≠ [] ∧ ∃ tok ∈ instrumentData, (lookupKey ticks tok).isSome = true := by
  rw [dueCycle]
  by_cases he : instrumentData.isEmpty
  · rw [if_pos he]
    simp [List.isEmpty_iff.mp he]
  · rw [if_neg he]
    have hne : instrumentData ≠ [] := fun hc => he (by simp [hc])
    by_cases hn : (instrumentData.filterMap
        fun tok => (lookupKey ticks tok).map (fun t => (tok, t))).isEmpty
    · rw [if_pos hn]
      simp only [Option.isSome_none, Bool.false_eq_true, false_iff, not_and]
      intro _
      rw [List.isEmpty_iff, List.filterMap_eq_nil_iff] at hn
      push_neg
      intro tok hmem
      have := Option.map_eq_none'.mp (hn tok hmem)
      simp [this]
    · rw [if_neg hn]
      simp only [Option.isSome_some, true_iff]
      refine ⟨hne, ?_⟩
      rw [List.isEmpty_iff] at hn
      have : ∃ tok ∈ instrumentData,
          ((lookupKey ticks tok).map (fun t => (tok, t))) ≠ none := by
        by_contra hc
        push_neg at hc
        exact hn (List.filterMap_eq_nil_iff.mpr hc)
      obtain ⟨tok, hmem, hsome⟩ := this
      refine ⟨tok, hmem, ?_⟩
      rw [Option.ne_none_iff_isSome] at hsome
      simpa using hsome

/-- The published value of a due cycle does not depend on the
previously published ticks. -/
theorem dueCycle_ignores_prev {α : Type} (instrumentData : List String)
    (ticks prev prev2 : List (String × α)) :
    dueCycle instrumentData ticks prev = dueCycle instrumentData ticks prev2 := rfl

end OrderListLoop

/-! Claim theorems. -/

open OpenOrderWindow

/-- C1 (amended): in the Adjust→OPEN flow, when `currentPrice > 0`, for
a BUY order a positive stop loss passes validation iff it is strictly
below the current price and a positive target passes iff it is strictly
above; for a SELL order both inequalities invert; and when
`currentPrice ≤ 0` the stop-loss/target validation is skipped entirely.
(The amendment replaces the claimed "nonzero" by "positive": the code
tests `sl > 0` and `tgt > 0`, so a negative value is never rejected.) -/
theorem C1_slTargetValidation (cp sl tgt : ℚ) :
    (0 < cp →
      ((slTargetError "BUY" cp sl tgt = none ↔
          ((0 < sl → sl < cp) ∧ (0 < tgt → cp < tgt))) ∧
       (slTargetError "SELL" cp sl tgt = none ↔
          ((0 < sl → cp < sl) ∧ (0 < tgt → tgt < cp))))) ∧
    (cp ≤ 0 → ∀ side : String, slTargetError side cp sl tgt = none) :=
  ⟨fun hcp => ⟨slTargetError_none_buy_iff cp sl tgt hcp,
    slTargetError_none_sell_iff cp sl tgt hcp⟩,
   fun hcp side => slTargetError_of_nonpos side cp sl tgt hcp⟩

/-- C1 witness: at `currentPrice = 100` for BUY, stop loss 99 with
target 101 is accepted, stop loss 100 is rejected, and the SELL
inversion accepts stop loss 101 with target 99. -/
theorem C1_slTargetValidation_witness :
    slTargetError "BUY" 100 99 101 = none ∧
    slTargetError "BUY" 100 100 101 ≠ none ∧
    slTargetError "SELL" 100 101 99 = none := by
  refine ⟨((C1_slTargetValidation 100 99 101).1 (by norm_num)).1.mpr
      ⟨fun _ => by norm_num, fun _ => by norm_num⟩, ?_,
    ((C1_slTargetValidation 100 101 99).1 (by norm_num)).2.mpr
      ⟨fun _ => by norm_num, fun _ => by norm_num⟩⟩
  intro h
  have := (((C1_slTargetValidation 100 100 101).1 (by norm_num)).1.mp h).1 (by norm_num)
  linarith

/-- C1 counterexample: the claim says a NONZERO target that is not
strictly above the current price is rejected for BUY; the target -1 at
current price 100 is nonzero and not above, yet the validation accepts
(the code only checks targets greater than zero). -/
theorem C1_counterexample :
    (-1 : ℚ) ≠ 0 ∧ ¬((100 : ℚ) < -1) ∧
    slTargetError "BUY" 100 0 (-1) = none := by
  refine ⟨by norm_num, by norm_num, ?_⟩
  simp [slTargetError]

/-- C2: in the Adjust→OPEN flow with added lots, the available limit is
the intraday available limit minus the used limit for the intraday
(`MIS`) product and the overnight available limit otherwise; the
required amount is `addedLots * lotSize * currentPrice`; the engine
rejects with an error carrying the required and available amounts
exactly when required exceeds available, and submits (required equal to
available included) otherwise. -/
theorem C2_fundCheck (i : AdjustInputs) (f : FundsData)
    (hv : slTargetError i.orderSide i.currentPrice i.slPrice i.targetPrice = none)
    (hadd : 0 < i.parsedAddLots) :
    availableLimit (productType i) f =
      (if i.product = "MIS" then f.intraday_available_limit - f.intraday_used_limit
       else f.overnight_available_limit) ∧
    requiredAmount i = (i.parsedAddLots : ℚ) * i.lotSize * i.currentPrice ∧
    (availableLimit (productType i) f < requiredAmount i →
      handleAction i (some f) "Adjust" "OPEN" =
        (.insufficientFunds (requiredAmount i) (availableLimit (productType i) f),
          [.fundsQuery])) ∧
    (requiredAmount i ≤ availableLimit (productType i) f →
      handleAction i (some f) "Adjust" "OPEN" =
        (.submitted (openPayload i), [.fundsQuery, .orderMutation (openPayload i)])) := by
  refine ⟨?_, ?_, ?_, ?_⟩
  · by_cases h : i.product = "MIS" <;> simp [availableLimit, productType, h]
  · rw [requiredAmount]
  · intro hlt
    simp [handleAction, hv, hadd, hlt]
  · intro hle
    simp [handleAction, hv, hadd, not_lt.mpr hle]

/-- C2 witness: available limit 100000 with 40000 used gives 60000;
2 added lots of size 25 at price 1200 require exactly 60000, and the
boundary case is accepted and submitted. -/
theorem C2_fundCheck_witness :
    handleAction fundsCheckInput (some fundsCheckFunds) "Adjust" "OPEN" =
      (.submitted (openPayload fundsCheckInput),
        [.fundsQuery, .orderMutation (openPayload fundsCheckInput)]) := by
  have h := (C2_fundCheck fundsCheckInput fundsCheckFunds
    (by simp [slTargetError, fundsCheckInput])
    (by norm_num [fundsCheckInput])).2.2.2
  apply h
  simp [requiredAmount, availableLimit, productType, fundsCheckInput, fundsCheckFunds]
  norm_num

/-- C3 (amended): for every order satisfying the data-model invariant
`quantity = lots * lot_size` with positive quantity, the Adjust→OPEN
payload price with added lots is the weighted average
`(qty*avg + addedLots*lotSize*p) / (qty + addedLots*lotSize)` rounded
to 2 decimals; with no added lots it is the existing average ALSO
rounded to 2 decimals (the amendment adds this rounding, which the
claim omitted). -/
theorem C3_weightedAverage (i : AdjustInputs)
    (hconsist : i.qty = i.currentLots * i.lotSize) (hq : 0 < i.qty) :
    (0 < i.parsedAddLots →
      (openPayload i).price = some (round2
        ((i.qty * i.avg + (i.parsedAddLots : ℚ) * i.lotSize * i.currentPrice) /
          (i.qty + (i.parsedAddLots : ℚ) * i.lotSize)))) ∧
    (i.parsedAddLots = 0 → (openPayload i).price = some (round2 i.avg)) := by
  constructor
  · intro hadd
    have hden : targetTotalQuantity i = i.qty + (i.parsedAddLots : ℚ) * i.lotSize := by
      rw [targetTotalQuantity, targetTotalLots, hconsist]; ring
    have havg : computedAvg i =
        (i.qty * i.avg + (i.parsedAddLots : ℚ) * i.lotSize * i.currentPrice) /
          (i.qty + (i.parsedAddLots : ℚ) * i.lotSize) := by
      rw [computedAvg, if_pos hadd, hden]
    simp [openPayload, havg]
  · intro hz
    have havg : computedAvg i = i.avg := by
      rw [computedAvg, if_neg (by omega)]
    simp [openPayload, havg]

/-- C3 witness: existing quantity 75 at average 100 (3 lots of 25),
adding one lot of 25 at price 120, submits price 105.00. -/
theorem C3_weightedAverage_witness :
    (openPayload weightedAvgInput).price = some 105 := by
  have h := (C3_weightedAverage weightedAvgInput (by norm_num [weightedAvgInput])
    (by norm_num [weightedAvgInput])).1 (by norm_num [weightedAvgInput])
  rw [h]
  norm_num [weightedAvgInput, round2]

/-- C3 counterexample: with no added lots and existing average 100.125
(801/8), the submitted price is the rounded 100.13, not the existing
average, refuting the unrounded reading of the claim. -/
theorem C3_counterexample :
    roundingCexInput.parsedAddLots = 0 ∧
    (openPayload roundingCexInput).price = some (10013/100) ∧
    (10013/100 : ℚ) ≠ roundingCexInput.avg := by
  refine ⟨rfl, ?_, by norm_num [roundingCexInput]⟩
  norm_num [openPayload, computedAvg, roundingCexInput, round2]

/-- C4: the Adjust buttons are disabled while a mutation is pending
(`submitting` true), so a second Adjust attempt on the same order is
rejected locally at the component: `handleAction` does not run, no
outcome is produced, and zero outbound calls (neither the funds query
nor the order-mutation fetch) are made. -/
theorem C4_singleInFlight (i : AdjustInputs) (funds : Option FundsData)
    (targetStatus : String) :
    adjustButtonClick true i funds targetStatus = (none, []) := rfl

/-- C5 (amended): the option-chain loop publishes only on an actual
LTP change — after a published cycle, a second due cycle over the same
ticks publishes nothing (for the well-formed token maps the
subscription pass builds) — while the order-list loop in OpenOrder
ignores the previously published ticks entirely and publishes on every
due cycle in which any subscribed instrument has a tick present, even
one identical to the last published value. -/
theorem C5_changeOnlyPublish :
    (∀ (chain chain2 : List OptionChain.ChainRow)
        (tokenMap : List (String × OptionChain.TokenPos)) (ticks : List (String × ℚ)),
      OptionChain.wellFormed chain tokenMap →
      OptionChain.updateLoopCycle chain tokenMap ticks = some chain2 →
      OptionChain.updateLoopCycle chain2 tokenMap ticks = none) ∧
    (∀ (α : Type) (instrumentData : List String) (ticks prev prev2 : List (String × α)),
      OrderListLoop.dueCycle instrumentData ticks prev =
        OrderListLoop.dueCycle instrumentData ticks prev2 ∧
      ((OrderListLoop.dueCycle instrumentData ticks prev).isSome = true ↔
        instrumentData ≠ [] ∧ ∃ tok ∈ instrumentData, (lookupKey ticks tok).isSome = true)) :=
  ⟨fun chain chain2 tokenMap ticks hwf h1 =>
     OptionChain.updateLoopCycle_no_republish chain chain2 tokenMap ticks hwf h1,
   fun _ instrumentData ticks prev prev2 =>
     ⟨OrderListLoop.dueCycle_ignores_prev instrumentData ticks prev prev2,
      OrderListLoop.dueCycle_isSome_iff instrumentData ticks prev⟩⟩

/-- C5 witness: applying the call tick 5 to the one-row chain publishes
once, and the next due cycle over the same tick publishes nothing. -/
theorem C5_changeOnlyPublish_witness :
    OptionChain.updateLoopCycle chainAfter chainTokenMap chainTicks = none := by
  apply C5_changeOnlyPublish.1 chainBefore chainAfter chainTokenMap chainTicks
  · constructor
    · intro e he
      simp [chainTokenMap] at he
      subst he
      exact ⟨Or.inl rfl, rfl⟩
    · simp [chainTokenMap]
  · rfl

/-- C5 counterexample: the order-list loop republishes an identical
tick — with liveTicks already published as token 11 at 100 and the tick
map still holding exactly that tick, the next due cycle publishes
again (the claim requires no second publish for an identical tick). -/
theorem C5_counterexample :
    OrderListLoop.dueCycle ["11"] [("11", (100 : ℚ))] [("11", (100 : ℚ))] =
      some [("11", (100 : ℚ))] := rfl

/-- C6: the Adjust→HOLD transition submits exactly one mutation whose
payload marks the order status HOLD and carries no price, lots or
quantity field. -/
theorem C6_holdFrame (i : AdjustInputs) (funds : Option FundsData) :
    handleAction i funds "Adjust" "HOLD" =
      (.submitted (exitPayload i "HOLD"), [.orderMutation (exitPayload i "HOLD")]) ∧
    (exitPayload i "HOLD").order_status = some "HOLD" ∧
    (exitPayload i "HOLD").price = none ∧
    (exitPayload i "HOLD").lots = none ∧
    (exitPayload i "HOLD").quantity = none := by
  refine ⟨?_, rfl, rfl, rfl, rfl⟩
  simp [handleAction]

/-- C7: validation errors and insufficient-funds errors are raised
before submission and never reach the order-mutation service — on a
validation error `handleAction` performs no outbound call at all, on an
insufficient-funds error its only outbound call is the funds query, and
an invalid price edit makes `handlePriceSave` return with no call. -/
theorem C7_errorsBeforeSubmission (i : AdjustInputs) (funds : Option FundsData)
    (clickedAction targetStatus : String) (editPriceInput : Option ℚ) :
    (∀ msg, (handleAction i funds clickedAction targetStatus).1 = .validationError msg →
      (handleAction i funds clickedAction targetStatus).2 = []) ∧
    (∀ r a, (handleAction i funds clickedAction targetStatus).1 = .insufficientFunds r a →
      ∀ p, OutboundCall.orderMutation p ∉ (handleAction i funds clickedAction targetStatus).2) ∧
    ((handlePriceSave editPriceInput).1 = .invalidPrice →
      (handlePriceSave editPriceInput).2 = []) := by
  have hval : ∀ o : ActionOutcome × List OutboundCall,
      handleAction i funds clickedAction targetStatus = o →
      (∀ msg, o.1 = .validationError msg → o.2 = []) ∧
      (∀ r a, o.1 = .insufficientFunds r a → o.2 = [.fundsQuery]) := by
    intro o ho
    by_cases h1 : targetStatus = "OPEN" ∧ clickedAction = "Adjust"
    · obtain ⟨hts, hca⟩ := h1
      subst hts; subst hca
      cases hsl : slTargetError i.orderSide i.currentPrice i.slPrice i.targetPrice with
      | some m =>
        have he : handleAction i funds "Adjust" "OPEN" = (.validationError m, []) := by
          simp [handleAction, hsl]
        rw [he] at ho
        subst ho
        exact ⟨fun _ _ => rfl, fun r a hra => by simp at hra⟩
      | none =>
        by_cases hadd : 0 < i.parsedAddLots
        · cases funds with
          | none =>
            have he : handleAction i none "Adjust" "OPEN" =
                (.fundsFetchError, [.fundsQuery]) := by
              simp [handleAction, hsl, hadd]
            rw [he] at ho
            subst ho
            exact ⟨fun msg hm => by simp at hm, fun r a hra => by simp at hra⟩
          | some f =>
            by_cases hlt : availableLimit (productType i) f < requiredAmount i
            · have he : handleAction i (some f) "Adjust" "OPEN" =
                  (.insufficientFunds (requiredAmount i) (availableLimit (productType i) f),
                    [.fundsQuery]) := by
                simp [handleAction, hsl, hadd, hlt]
              rw [he] at ho
              subst ho
              exact ⟨fun msg hm => by simp at hm, fun r a _ => rfl⟩
            · have he : handleAction i (some f) "Adjust" "OPEN" =
                  (.submitted (openPayload i),
                    [.fundsQuery, .orderMutation (openPayload i)]) := by
                simp [handleAction, hsl, hadd, hlt]
              rw [he] at ho
              subst ho
              exact ⟨fun msg hm => by simp at hm, fun r a hra => by simp at hra⟩
        · have he : handleAction i funds "Adjust" "OPEN" =
              (.submitted (openPayload i), [.orderMutation (openPayload i)]) := by
            simp [handleAction, hsl, hadd]
          rw [he] at ho
          subst ho
          exact ⟨fun msg hm => by simp at hm, fun r a hra => by simp at hra⟩
    · by_cases h2 : targetStatus = "OPEN"
      · have hca : clickedAction ≠ "Adjust" := fun hc => h1 ⟨h2, hc⟩
        have he : handleAction i funds clickedAction targetStatus =
            (.submitted (openPayload i), [.orderMutation (openPayload i)]) := by
          simp [handleAction, h2, hca]
        rw [he] at ho
        subst ho
        exact ⟨fun msg hm => by simp at hm, fun r a hra => by simp at hra⟩
      · have he : handleAction i funds clickedAction targetStatus =
            (.submitted (exitPayload i targetStatus),
              [.orderMutation (exitPayload i targetStatus)]) := by
          simp [handleAction, h1, h2]
        rw [he] at ho
        subst ho
        exact ⟨fun msg hm => by simp at hm, fun r a hra => by simp at hra⟩
  refine ⟨?_, ?_, ?_⟩
  · intro msg h
    exact (hval _ rfl).1 msg h
  · intro r a h p
    have hc : (handleAction i funds clickedAction targetStatus).2 =
        [OutboundCall.fundsQuery] := (hval _ rfl).2 r a h
    rw [hc]
    simp
  · intro h
    cases editPriceInput with
    | none => rfl
    | some p =>
      by_cases hneg : p < 0
      · simp [handlePriceSave, hneg]
      · rw [handlePriceSave] at h
        simp [hneg] at h

/-- C7 witness: a BUY stop loss equal to the current price makes
`handleAction` return with zero outbound calls, and a negative price
edit makes `handlePriceSave` return with zero outbound calls. -/
theorem C7_witness :
    (handleAction slErrorInput none "Adjust" "OPEN").2 = [] ∧
    (handlePriceSave (some (-1))).2 = [] := by
  constructor
  · exact (C7_errorsBeforeSubmission slErrorInput none "Adjust" "OPEN" none).1
      "Invalid SL For BUY SL must be lower than CMP"
      (by simp [handleAction, slTargetError, slErrorInput])
  · exact (C7_errorsBeforeSubmission slErrorInput none "Adjust" "OPEN" (some (-1))).2.2
      (by norm_num [handlePriceSave])

/-- C8: the Adjust→CLOSED payload closes at
`liveLtp - liveLtp*(jobbing/100)` for BUY and
`liveLtp + liveLtp*(jobbing/100)` for SELL, rounded to 4 decimals, when
a live price exists (`liveLtp > 0`); it carries a close timestamp; with
no live price the submitted close price is 0; and the mutation POSTed
is exactly that payload. -/
theorem C8_closePrice (i : AdjustInputs) (funds : Option FundsData) :
    (∀ L : ℚ, i.sheetLtp = some L → 0 < L →
      ((i.orderSide = "BUY" →
         (exitPayload i "CLOSED").closed_ltp = some (round4 (L - L * (i.jobbing / 100)))) ∧
       (i.orderSide = "SELL" →
         (exitPayload i "CLOSED").closed_ltp = some (round4 (L + L * (i.jobbing / 100)))))) ∧
    (i.sheetLtp = none → (exitPayload i "CLOSED").closed_ltp = some 0) ∧
    (exitPayload i "CLOSED").closed_at = true ∧
    handleAction i funds "Adjust" "CLOSED" =
      (.submitted (exitPayload i "CLOSED"), [.orderMutation (exitPayload i "CLOSED")]) := by
  refine ⟨?_, ?_, rfl, ?_⟩
  · intro L hL hpos
    constructor
    · intro hside
      simp [exitPayload, closedLtp, hL, hpos, hside]
    · intro hside
      simp [exitPayload, closedLtp, hL, hpos, hside]
  · intro hnone
    simp only [exitPayload, closedLtp, hnone]
    norm_num [round4]
  · simp [handleAction]

/-- C8 witness: a BUY with live price 100 and jobbing percentage 2
closes at 98. -/
theorem C8_closePrice_witness :
    (exitPayload closePriceInput "CLOSED").closed_ltp = some 98 := by
  have h := ((C8_closePrice closePriceInput none).1 100 rfl (by norm_num)).1 rfl
  rw [h]
  norm_num [round4, closePriceInput]

/-- C9: every Adjust→OPEN payload satisfies the order-consistency
invariant — the submitted quantity is the submitted lot count
(current lots plus added lots) times the lot size. -/
theorem C9_lotsQuantityInvariant (i : AdjustInputs) :
    (openPayload i).quantity = some ((i.currentLots + (i.parsedAddLots : ℚ)) * i.lotSize) ∧
    (openPayload i).lots = some (i.currentLots + (i.parsedAddLots : ℚ)) := ⟨rfl, rfl⟩

/-- C10: every Adjust→OPEN payload hardcodes the product field to MIS
regardless of the order product, even though the preceding fund check
selects the intraday or overnight limit according to that product. -/
theorem C10_productAlwaysMIS (i : AdjustInputs) (f : FundsData) :
    (openPayload i).product = some "MIS" ∧
    availableLimit (productType i) f =
      (if i.product = "MIS" then f.intraday_available_limit - f.intraday_used_limit
       else f.overnight_available_limit) := by
  refine ⟨rfl, ?_⟩
  by_cases h : i.product = "MIS" <;> simp [availableLimit, productType, h]

end DhanLaxmi
